import Mathlib

/-!
Shallow embedding of `src/dni/main.py` (devcontainer-nix-injector).

Covered here: the source-selection validation (`validate_url`, `validate_github`,
`validate_sources` and the click callback processing around them), the
shlex-quoted capability probe, and the `setup` command's bootstrap pipeline as a
trace function over an exit-code oracle for the external `devcontainer` tool.

Modelling notes:
* Python's regex `\w` is modelled over its ASCII subset `[A-Za-z0-9_]` (the
  spec's examples and character classes are ASCII).
* In Python, `re.match` with a pattern ending in `$` also matches just before a
  single trailing newline; this is modelled faithfully.
* `ctx.params.get(name)` returns `None` both when the parameter has not been
  processed yet and when it was processed with value `None`; the model uses a
  single `Option String` per parameter, exactly mirroring that conflation.
* Exit-status semantics of a run: the command function returning normally makes
  the process exit 0 (typer/click); an uncaught `CalledProcessError` raised by
  `check_returncode()` terminates the interpreter with exit status 1.
-/

namespace DNI

/-- The single-quote character (written via its code point). -/
def apos : Char := Char.ofNat 39

/-- The double-quote character. -/
def dquote : Char := Char.ofNat 34

/-- The backslash character. -/
def bslash : Char := Char.ofNat 92

/-- The backtick character. -/
def btick : Char := Char.ofNat 96

/-- One-character string holding a single quote. -/
def sq : String := String.singleton apos

/-- Error kinds raised through `typer.BadParameter` in main.py, classified by
message: "Invalid URL"/"Invalid GitHub repo format" are `invalidFormat`,
"Cannot specify both --repo and --github" is `conflictingSources`, and
"Must specify either --repo or --github" is `missingSource`. -/
inductive SrcError where
  | invalidFormat
  | conflictingSources
  | missingSource
  deriving DecidableEq

/-- ASCII word character: Python regex `\w` restricted to ASCII, `[A-Za-z0-9_]`. -/
def isWordChar (c : Char) : Bool := c.isAlphanum || c == '_'

/-- The character class `[\w\-\.]` of the URL host part in `validate_url`. -/
def isHostChar (c : Char) : Bool := isWordChar c || c == '-' || c == '.'

/-- The character class `[A-Za-z0-9_.-]` of `validate_github`. -/
def isRepoChar (c : Char) : Bool := c.isAlphanum || c == '_' || c == '.' || c == '-'

/-- Strips the `https?://` prefix of `validate_url`'s regex; the two scheme
alternatives are mutually exclusive (they differ at index 4). -/
def stripScheme (s : List Char) : Option (List Char) :=
  if s.take 8 = "https://".data then some (s.drop 8)
  else if s.take 7 = "http://".data then some (s.drop 7)
  else none

/-- Matches the host part `[\w\-\.]+\.[a-z]{2,}` of `validate_url`'s regex against
the segment before the first '/': anchored on both sides, the matched `\.` is
necessarily the last '.' of the segment, the label after it must be 2+ lowercase
letters, and something nonempty must precede that dot. -/
def hostOk (h : List Char) : Bool :=
  h.all isHostChar &&
    (decide (2 ≤ (h.reverse.takeWhile (· != '.')).length) &&
      (h.reverse.takeWhile (· != '.')).all Char.isLower &&
      decide (2 ≤ (h.reverse.dropWhile (· != '.')).length))

/-- The part of `validate_url`'s regex after the scheme, on a string with no
trailing newline: no newline anywhere (`.` and the host classes exclude it), the
host runs up to the first '/', and `(/.*)?` needs no further check because the
remainder starts with '/' by construction of the split. -/
def urlCore (c : List Char) : Bool :=
  c.all (· != '\n') && hostOk (c.takeWhile (· != '/'))

/-- `re.match` of `r"^https?://[\w\-\.]+\.[a-z]{2,}(/.*)?$"` (from `validate_url`).
`$` also matches just before one trailing newline. -/
def matchUrl (s : List Char) : Bool :=
  match stripScheme s with
  | none => false
  | some rest =>
    if rest.getLast? = some '\n' then urlCore rest.dropLast else urlCore rest

/-- The body of `validate_github`'s regex on a string with no trailing newline:
both segment classes exclude '/', so the pattern's '/' is the first '/' of the
string and both segments must be nonempty runs of `[A-Za-z0-9_.-]`. -/
def githubCore (c : List Char) : Bool :=
  match c.dropWhile (· != '/') with
  | '/' :: seg2 =>
      !(c.takeWhile (· != '/')).isEmpty && (c.takeWhile (· != '/')).all isRepoChar &&
        !seg2.isEmpty && seg2.all isRepoChar
  | _ => false

/-- `re.match` of `r"^[A-Za-z0-9_.-]+/[A-Za-z0-9_.-]+$"` (from `validate_github`).
`$` also matches just before one trailing newline. -/
def matchGithub (s : List Char) : Bool :=
  if s.getLast? = some '\n' then githubCore s.dropLast else githubCore s

/-- `validate_url` from main.py: `None` passes through; otherwise the URL regex
must match, else `typer.BadParameter` ("Invalid URL") is raised. -/
def validate_url (v : Option String) : Except SrcError (Option String) :=
  match v with
  | none => Except.ok none
  | some s => if matchUrl s.data then Except.ok (some s) else Except.error SrcError.invalidFormat

/-- `validate_github` from main.py: `None` passes through; otherwise the repo
regex must match, else `typer.BadParameter` ("Invalid GitHub repo format"). -/
def validate_github (v : Option String) : Except SrcError (Option String) :=
  match v with
  | none => Except.ok none
  | some s => if matchGithub s.data then Except.ok (some s) else Except.error SrcError.invalidFormat

/-- The two mutually-exclusive source options of the `setup` command. -/
inductive ParamName where
  | repo
  | github
  deriving DecidableEq

/-- `validate_sources` from main.py. `ctxRepo`/`ctxGithub` are
`ctx.params.get("repo")` / `ctx.params.get("github")`: `none` both when the other
callback has not run yet and when it ran with value `None`. -/
def validate_sources (pname : ParamName) (ctxRepo ctxGithub : Option String)
    (value : Option String) : Except SrcError (Option String) :=
  let other_value := match pname with
    | ParamName.repo => ctxGithub
    | ParamName.github => ctxRepo
  if value ≠ none ∧ other_value ≠ none then Except.error SrcError.conflictingSources
  else if pname = ParamName.github ∧ value = none ∧ ctxRepo = none then
    Except.error SrcError.missingSource
  else Except.ok value

/-- One option callback of `setup`: the lambda passed to `typer.Option`, composing
the format validator with `validate_sources` (the format validator runs first). -/
def paramCallback (p : ParamName) (urlv ghv : Option String)
    (ctxRepo ctxGithub : Option String) : Except SrcError (Option String) :=
  match p with
  | ParamName.repo => (validate_url urlv).bind (validate_sources ParamName.repo ctxRepo ctxGithub)
  | ParamName.github => (validate_github ghv).bind (validate_sources ParamName.github ctxRepo ctxGithub)

/-- Click invokes the two callbacks in sequence, recording each callback's result
in `ctx.params` before the next one runs; `first` is whichever of the two
parameters click processes first. -/
def runCallbacks (first : ParamName) (urlv ghv : Option String) :
    Except SrcError (Option String × Option String) :=
  match first with
  | ParamName.repo =>
      (paramCallback ParamName.repo urlv ghv none none).bind fun r =>
        (paramCallback ParamName.github urlv ghv r none).bind fun g =>
          Except.ok (r, g)
  | ParamName.github =>
      (paramCallback ParamName.github urlv ghv none none).bind fun g =>
        (paramCallback ParamName.repo urlv ghv none g).bind fun r =>
          Except.ok (r, g)

/-- The callback orders click can actually produce for these two non-eager
options: parameters given on the command line are processed first, in
command-line order, and absent parameters afterwards in declaration order
(repo before github). So the present option's callback runs first when exactly
one is present; either order can occur when both are present; repo runs first
when neither is present. -/
def achievableOrder (urlv ghv : Option String) (first : ParamName) : Bool :=
  match urlv, ghv with
  | some _, none => decide (first = ParamName.repo)
  | none, some _ => decide (first = ParamName.github)
  | none, none => decide (first = ParamName.repo)
  | some _, some _ => true

/-- The source-selection outcome as a function of the two raw candidates alone
(the behaviour of main.py on every achievable callback order). -/
def expectedOutcome (urlv ghv : Option String) :
    Except SrcError (Option String × Option String) :=
  match urlv, ghv with
  | none, none => Except.error SrcError.missingSource
  | some u, none =>
      if matchUrl u.data then Except.ok (some u, none) else Except.error SrcError.invalidFormat
  | none, some g =>
      if matchGithub g.data then Except.ok (none, some g) else Except.error SrcError.invalidFormat
  | some u, some g =>
      if matchUrl u.data && matchGithub g.data then Except.error SrcError.conflictingSources
      else Except.error SrcError.invalidFormat

/-- The host-plus-path part of the URL shape stated by the spec: a nonempty host
of host characters, a dot, a top-level label of 2+ (lowercase) letters, and an
optional path that starts with '/' (a path contains no newline). -/
def urlCoreShape (c : List Char) : Prop :=
  ∃ host tld path : List Char,
    c = host ++ '.' :: (tld ++ path) ∧
      host ≠ [] ∧ (∀ x ∈ host, isHostChar x = true) ∧
      (∀ x ∈ tld, x.isLower = true) ∧ 2 ≤ tld.length ∧
      (path = [] ∨ ((∃ r, path = '/' :: r) ∧ ∀ x ∈ path, x ≠ '\n'))

/-- The URL shape stated by the spec, over characters: scheme `http` or `https`,
`://`, then a host containing a dot with a 2+ letter top-level label and an
optional path. -/
def urlShape (s : List Char) : Prop :=
  ∃ scheme rest : List Char,
    s = scheme ++ ':' :: '/' :: '/' :: rest ∧
      (scheme = "http".data ∨ scheme = "https".data) ∧ urlCoreShape rest

/-- The repository-reference shape stated by the spec, over characters: two
nonempty segments of `[A-Za-z0-9_.-]` separated by a '/' (the class excludes
'/', so the separator is unique). -/
def githubShape (s : List Char) : Prop :=
  ∃ a b : List Char,
    s = a ++ '/' :: b ∧ a ≠ [] ∧ b ≠ [] ∧
      (∀ c ∈ a, isRepoChar c = true) ∧ (∀ c ∈ b, isRepoChar c = true)

/-- Characters Python's `shlex.quote` leaves unquoted: ASCII word characters and
`@ % + = : , .` slash `-` (from `shlex._find_unsafe`, compiled with `re.ASCII`). -/
def shlexSafe (c : Char) : Bool :=
  c.isAlphanum || c == '_' || c == '@' || c == '%' || c == '+' || c == '=' ||
    c == ':' || c == ',' || c == '.' || c == '/' || c == '-'

/-- `s.replace("'", "'\"'\"'")` from `shlex.quote`, over characters. -/
def quoteInner : List Char → List Char
  | [] => []
  | c :: r =>
      if c = apos then apos :: dquote :: apos :: dquote :: apos :: quoteInner r
      else c :: quoteInner r

/-- Python's `shlex.quote`: the empty string becomes `''`; strings of safe
characters pass through; anything else is wrapped in single quotes with embedded
single quotes escaped as `'"'"'`. -/
def shlex_quote (s : String) : String :=
  if s = "" then sq ++ sq
  else if s.data.all shlexSafe then s
  else sq ++ String.mk (quoteInner s.data) ++ sq

/-- Quoting modes while a POSIX shell reads one word. -/
inductive QMode where
  | bare
  | single
  | double
  deriving DecidableEq

/-- Characters that are not literal in an unquoted (bare) shell word: whitespace
and operator metacharacters end or split the word, quote characters open
quotations, and `$` backtick `\` `*` `?` `[` `#` `~` trigger expansions. Reading
such a character bare means the word carries extra shell syntax. -/
def shellSpecials : List Char :=
  [' ', '\t', '\n', '|', '&', ';', '<', '>', '(', ')', '$', btick,
    dquote, apos, '*', '?', '[', '#', '~', bslash]

/-- Whether a character read bare would be interpreted as shell syntax. -/
def shellSpecial (c : Char) : Bool := decide (c ∈ shellSpecials)

/-- External shell semantics (the probe's command runs under `bash -c`): reads a
token as one plain word and returns its literal value, refusing any character
that would be interpreted as extra shell syntax. Single quotes protect every
character; double quotes protect everything except `$`, backtick and backslash. -/
def readWord : QMode → List Char → Option (List Char)
  | QMode.bare, [] => some []
  | QMode.single, [] => none
  | QMode.double, [] => none
  | QMode.bare, c :: r =>
      if c = apos then readWord QMode.single r
      else if c = dquote then readWord QMode.double r
      else if shellSpecial c then none
      else (readWord QMode.bare r).map (c :: ·)
  | QMode.single, c :: r =>
      if c = apos then readWord QMode.bare r
      else (readWord QMode.single r).map (c :: ·)
  | QMode.double, c :: r =>
      if c = dquote then readWord QMode.bare r
      else if c = '$' || c = btick || c = bslash then none
      else (readWord QMode.double r).map (c :: ·)

/-- The remote command built by `command_in_container_available`:
`command -v` applied to the shell-quoted executable name. -/
def probe_command (name : String) : String := "command -v " ++ shlex_quote name

/-- Oracle for the external collaborators of one `setup` run: the exit status of
`devcontainer up`, and the exit status of each `bash -c` command executed in the
container, keyed by the command string. -/
structure Env where
  upCode : Nat
  bashCode : String → Nat

/-- `command_in_container_available` from main.py: runs the probe command with
output captured and discarded, and reports exactly `returncode == 0`. -/
def command_in_container_available (env : Env) (name : String) : Bool :=
  env.bashCode (probe_command name) == 0

/-- One `devcontainer` CLI invocation made by a `setup` run. -/
inductive Call where
  | up (purge : Bool)
  | probe (name : String)
  | exec (cmd : String) (renv : List (String × String))
  deriving DecidableEq

/-- Whether a call is a `devcontainer_exec` command (an install or apply command,
as opposed to `devcontainer up` or a capability probe). -/
def isExecCall : Call → Bool
  | Call.exec _ _ => true
  | _ => false

/-- The bootstrap stages of `setup_devcontainer`, in source order. -/
inductive Stage where
  | containerStart
  | depsCheck
  | curlInstall
  | nixInstall
  | hmInstall
  | applyConfig
  deriving DecidableEq

/-- How one `setup` run ends: normally after the success echo; with an echo and a
plain `return` (container start failure, unsupported environment); or with an
uncaught `CalledProcessError` from `check_returncode()`. -/
inductive Outcome where
  | completed
  | failedReturn (s : Stage)
  | failedRaise (s : Stage)
  deriving DecidableEq

/-- Result of one modelled `setup` run: the outcome, every `devcontainer`
invocation in order, and every `typer.echo` line in order. -/
structure SetupResult where
  outcome : Outcome
  calls : List Call
  msgs : List String
  deriving DecidableEq

/-- Messages echoed by main.py. -/
def startingMsg (ws : String) : String := "Starting devcontainer in " ++ ws ++ "..."

/-- Echo after `devcontainer up` succeeds, together with the dependencies line. -/
def startedMsg : String := "Devcontainer started successfully! Start environment setup..."

/-- Echo before the base package manager probe. -/
def depsMsg : String := "Installing system dependencies..."

/-- Echo when the `apt` probe fails. -/
def unsupportedMsg : String := "System doesn" ++ sq ++ "t contain supported package manager!"

/-- Echo before installing nix. -/
def installingNixMsg : String := "Installing nix..."

/-- Echo before installing home-manager. -/
def installingHmMsg : String := "Installing home-manager..."

/-- Echo before the final apply command. -/
def applyingMsg : String := "Applying personal configuration..."

/-- Echo after the final apply command succeeds. -/
def successMsg : String := "Devcontainer setup completed successfully!"

/-- `deps_to_install` from main.py. -/
def deps_to_install : String := "curl"

/-- The curl install command string of main.py. -/
def aptInstallCmd : String := "sudo apt update && sudo apt install -y " ++ deps_to_install

/-- The nix install command string of main.py. -/
def nixInstallCmd : String :=
  "curl -L https://nixos.org/nix/install | " ++
    "sh -s -- --no-daemon --nix-extra-conf-file <(echo " ++ sq ++ "sandbox = false" ++ sq ++
    ") && " ++ ". $HOME/.nix-profile/etc/profile.d/nix.sh"

/-- The home-manager install command string of main.py (including its missing
`&&` before `nix-channel --update`, copied verbatim). -/
def hmInstallCmd : String :=
  "nix-channel --add https://github.com/nix-community/home-manager/archive/master.tar.gz home-manager &> /dev/null " ++
    "nix-channel --update && nix-shell " ++ sq ++ "<home-manager>" ++ sq ++
    " -A install &> /dev/null"

/-- The per-call remote environment of the final apply command. -/
def nix_env : List (String × String) :=
  [("NIX_CONFIG", "experimental-features = nix-command flakes")]

/-- Renders an optional string the way a Python f-string renders it. -/
def optStr (o : Option String) : String :=
  match o with
  | some s => s
  | none => "None"

/-- `formatted_nix_input = f"github:{github}" if github else repo`: Python
truthiness, so an empty github string also falls back to repo. -/
def formatted_nix_input (github repo : Option String) : String :=
  match github with
  | some g => if g = "" then optStr repo else "github:" ++ g
  | none => optStr repo

/-- The final apply command string of main.py. -/
def apply_command (input config : String) : String :=
  "nix run --inputs-from " ++ input ++ " home-manager -- " ++
    "switch --flake " ++ input ++ "#" ++ config ++ " -b backup"

/-- One idempotent install block of `setup_devcontainer`: probe, and when the
probe reports absence, echo the optional message and run the install command.
Returns the calls issued, the lines echoed, and whether the block succeeded. -/
def install_step (env : Env) (name cmd : String) (msg : Option String) :
    List Call × List String × Bool :=
  if command_in_container_available env name then ([Call.probe name], [], true)
  else
    ([Call.probe name, Call.exec cmd []],
      (match msg with | some m => [m] | none => []),
      env.bashCode cmd == 0)

/-- The curl install block as invoked by `setup_devcontainer` (no echo). -/
def curlStep (env : Env) : List Call × List String × Bool :=
  install_step env deps_to_install aptInstallCmd none

/-- The nix install block as invoked by `setup_devcontainer`. -/
def nixStep (env : Env) : List Call × List String × Bool :=
  install_step env "nix" nixInstallCmd (some installingNixMsg)

/-- The home-manager install block as invoked by `setup_devcontainer`. -/
def hmStep (env : Env) : List Call × List String × Bool :=
  install_step env "home-manager" hmInstallCmd (some installingHmMsg)

/-- `setup_devcontainer` from main.py as a trace function: start the container,
probe apt, run the three idempotent install blocks, then apply the
configuration, stopping at the first failure. -/
def setup_devcontainer (env : Env) (ws : String) (repo github : Option String)
    (config : String) (purge : Bool) : SetupResult :=
  if env.upCode ≠ 0 then
    ⟨Outcome.failedReturn Stage.containerStart, [Call.up purge],
      [startingMsg ws, "Failed to run container!"]⟩
  else if !command_in_container_available env "apt" then
    ⟨Outcome.failedReturn Stage.depsCheck, [Call.up purge, Call.probe "apt"],
      [startingMsg ws, startedMsg, depsMsg, unsupportedMsg]⟩
  else if !(curlStep env).2.2 then
    ⟨Outcome.failedRaise Stage.curlInstall,
      Call.up purge :: Call.probe "apt" :: (curlStep env).1,
      startingMsg ws :: startedMsg :: depsMsg :: (curlStep env).2.1⟩
  else if !(nixStep env).2.2 then
    ⟨Outcome.failedRaise Stage.nixInstall,
      Call.up purge :: Call.probe "apt" :: ((curlStep env).1 ++ (nixStep env).1),
      startingMsg ws :: startedMsg :: depsMsg :: ((curlStep env).2.1 ++ (nixStep env).2.1)⟩
  else if !(hmStep env).2.2 then
    ⟨Outcome.failedRaise Stage.hmInstall,
      Call.up purge :: Call.probe "apt" :: ((curlStep env).1 ++ (nixStep env).1 ++ (hmStep env).1),
      startingMsg ws :: startedMsg :: depsMsg ::
        ((curlStep env).2.1 ++ (nixStep env).2.1 ++ (hmStep env).2.1)⟩
  else if env.bashCode (apply_command (formatted_nix_input github repo) config) ≠ 0 then
    ⟨Outcome.failedRaise Stage.applyConfig,
      Call.up purge :: Call.probe "apt" ::
        ((curlStep env).1 ++ (nixStep env).1 ++ (hmStep env).1 ++
          [Call.exec (apply_command (formatted_nix_input github repo) config) nix_env]),
      startingMsg ws :: startedMsg :: depsMsg ::
        ((curlStep env).2.1 ++ (nixStep env).2.1 ++ (hmStep env).2.1 ++ [applyingMsg])⟩
  else
    ⟨Outcome.completed,
      Call.up purge :: Call.probe "apt" ::
        ((curlStep env).1 ++ (nixStep env).1 ++ (hmStep env).1 ++
          [Call.exec (apply_command (formatted_nix_input github repo) config) nix_env]),
      startingMsg ws :: startedMsg :: depsMsg ::
        ((curlStep env).2.1 ++ (nixStep env).2.1 ++ (hmStep env).2.1 ++
          [applyingMsg, successMsg])⟩

/-- Process exit status determined by an outcome: a plain `return` from the
command function exits 0 (typer/click), an uncaught `CalledProcessError` exits 1
(Python interpreter semantics for uncaught exceptions). -/
def exitCode (o : Outcome) : Nat :=
  match o with
  | Outcome.completed => 0
  | Outcome.failedReturn _ => 0
  | Outcome.failedRaise _ => 1

/-- Concrete oracle: `devcontainer up` succeeds, every probe finds its tool and
every command exits 0. -/
def envAllOk : Env := ⟨0, fun _ => 0⟩

/-- Concrete oracle: `devcontainer up` fails. -/
def envUpFail : Env := ⟨1, fun _ => 0⟩

/-- Concrete oracle: `devcontainer up` succeeds but the `apt` probe fails. -/
def envNoApt : Env := ⟨0, fun s => if s = probe_command "apt" then 1 else 0⟩

/-- Concrete oracle: apt and curl are present, nix is absent and its install
command fails. -/
def envNixFail : Env :=
  ⟨0, fun s =>
    if s = probe_command "apt" then 0
    else if s = probe_command deps_to_install then 0
    else 1⟩

/-- Concrete oracle for scenario C: apt present, curl/nix/home-manager absent,
the three install commands succeed, and everything else (in particular the final
apply command) fails. -/
def envScenC : Env :=
  ⟨0, fun s =>
    if s = probe_command "apt" then 0
    else if s = aptInstallCmd then 0
    else if s = nixInstallCmd then 0
    else if s = hmInstallCmd then 0
    else 1⟩

/-! Generic list helpers. -/

theorem take_len_append {α : Type} (a b : List α) : (a ++ b).take a.length = a := by
  induction a with
  | nil => simp
  | cons x xs ih => simp [ih]

theorem drop_len_append {α : Type} (a b : List α) : (a ++ b).drop a.length = b := by
  induction a with
  | nil => simp
  | cons x xs ih => simp [ih]

theorem takeWhile_all_of {α : Type} (p : α → Bool) (l : List α)
    (h : ∀ x ∈ l, p x = true) : l.takeWhile p = l := by
  induction l with
  | nil => rfl
  | cons x xs ih =>
    have hx : p x = true := h x (List.mem_cons_self x xs)
    simp [List.takeWhile, hx, ih fun y hy => h y (List.mem_cons_of_mem x hy)]

theorem takeWhile_append_stop {α : Type} (p : α → Bool) (a : List α) (x : α) (b : List α)
    (ha : ∀ c ∈ a, p c = true) (hx : p x = false) :
    (a ++ x :: b).takeWhile p = a := by
  induction a with
  | nil => simp [List.takeWhile, hx]
  | cons y ys ih =>
    have hy : p y = true := ha y (List.mem_cons_self y ys)
    simp [List.takeWhile, hy, ih fun c hc => ha c (List.mem_cons_of_mem y hc)]

theorem dropWhile_append_stop {α : Type} (p : α → Bool) (a : List α) (x : α) (b : List α)
    (ha : ∀ c ∈ a, p c = true) (hx : p x = false) :
    (a ++ x :: b).dropWhile p = x :: b := by
  induction a with
  | nil => simp [List.dropWhile, hx]
  | cons y ys ih =>
    have hy : p y = true := ha y (List.mem_cons_self y ys)
    simp [List.dropWhile, hy, ih fun c hc => ha c (List.mem_cons_of_mem y hc)]

theorem dropWhile_head_false {α : Type} (p : α → Bool) (l : List α) (x : α) (xs : List α)
    (h : l.dropWhile p = x :: xs) : p x = false := by
  induction l with
  | nil => simp [List.dropWhile] at h
  | cons y ys ih =>
    by_cases hy : p y = true
    · exact ih (by simpa [List.dropWhile, hy] using h)
    · have hyf : p y = false := by revert hy; cases p y <;> simp
      rw [List.dropWhile, hyf] at h
      cases h; exact hyf

theorem getLast?_append_right {α : Type} (a b : List α) (hb : b ≠ []) :
    (a ++ b).getLast? = b.getLast? := by
  induction a with
  | nil => rfl
  | cons x xs ih =>
    cases hxb : xs ++ b with
    | nil => exact absurd (List.append_eq_nil.mp hxb).2 hb
    | cons z zs =>
      rw [List.cons_append, hxb, List.getLast?_cons_cons, ← hxb, ih]

theorem mem_of_getLast? {α : Type} (l : List α) (a : α) (h : l.getLast? = some a) :
    a ∈ l := by
  induction l with
  | nil => simp [List.getLast?] at h
  | cons x xs ih =>
    cases xs with
    | nil => simp [List.getLast?] at h; simp [h]
    | cons y ys =>
      rw [List.getLast?_cons_cons] at h
      exact List.mem_cons_of_mem x (ih h)

theorem eq_dropLast_concat {α : Type} (l : List α) (a : α) (h : l.getLast? = some a) :
    l = l.dropLast ++ [a] := by
  induction l with
  | nil => simp [List.getLast?] at h
  | cons x xs ih =>
    cases xs with
    | nil => simp [List.getLast?] at h; simp [h]
    | cons y ys =>
      rw [List.getLast?_cons_cons] at h
      have := ih h
      calc x :: y :: ys = x :: ((y :: ys).dropLast ++ [a]) := by rw [← this]
        _ = (x :: y :: ys).dropLast ++ [a] := by simp [List.dropLast]

/-! Character-class facts used throughout. -/

theorem special_not_safe (c : Char) (h : shellSpecial c = true) : shlexSafe c = false := by
  have hm : c ∈ shellSpecials := of_decide_eq_true h
  fin_cases hm <;> decide

theorem hostChar_ne_newline (c : Char) (h : isHostChar c = true) : c ≠ '\n' := by
  intro he; subst he; revert h; decide

theorem hostChar_ne_slash (c : Char) (h : isHostChar c = true) : c ≠ '/' := by
  intro he; subst he; revert h; decide

theorem repoChar_ne_newline (c : Char) (h : isRepoChar c = true) : c ≠ '\n' := by
  intro he; subst he; revert h; decide

theorem repoChar_ne_slash (c : Char) (h : isRepoChar c = true) : c ≠ '/' := by
  intro he; subst he; revert h; decide

theorem lower_ne_newline (c : Char) (h : c.isLower = true) : c ≠ '\n' := by
  intro he; subst he; revert h; decide

theorem lower_ne_dot (c : Char) (h : c.isLower = true) : c ≠ '.' := by
  intro he; subst he; revert h; decide

theorem lower_ne_slash (c : Char) (h : c.isLower = true) : c ≠ '/' := by
  intro he; subst he; revert h; decide

theorem lower_hostChar (c : Char) (h : c.isLower = true) : isHostChar c = true := by
  simp [isHostChar, isWordChar, Char.isAlphanum, Char.isAlpha, h]

/-! Shell-word reading of shlex.quote output (claim C10 machinery). -/

theorem readWord_safe_chars (cs : List Char) (h : ∀ c ∈ cs, shlexSafe c = true) :
    readWord QMode.bare cs = some cs := by
  induction cs with
  | nil => rfl
  | cons c r ih =>
    have hc : shlexSafe c = true := h c (List.mem_cons_self c r)
    have h1 : c ≠ apos := by intro he; rw [he] at hc; revert hc; decide
    have h2 : c ≠ dquote := by intro he; rw [he] at hc; revert hc; decide
    have h3 : shellSpecial c = false := by
      cases hs : shellSpecial c
      · rfl
      · rw [special_not_safe c hs] at hc; cases hc
    rw [readWord, if_neg h1, if_neg h2, if_neg (by simp [h3]),
      ih fun y hy => h y (List.mem_cons_of_mem c hy)]
    rfl

theorem readWord_quoted (cs : List Char) : ∀ rest : List Char,
    readWord QMode.single (quoteInner cs ++ apos :: rest) =
      (readWord QMode.bare rest).map (cs ++ ·) := by
  have hda : dquote ≠ apos := by decide
  have haq : apos ≠ dquote := by decide
  have hadollar : apos ≠ '$' := by decide
  have habtick : apos ≠ btick := by decide
  have habslash : apos ≠ bslash := by decide
  induction cs with
  | nil =>
    intro rest
    rw [quoteInner, List.nil_append, readWord, if_pos rfl]
    cases readWord QMode.bare rest <;> simp
  | cons c r ih =>
    intro rest
    by_cases hc : c = apos
    · subst hc
      rw [quoteInner, if_pos rfl]
      rw [List.cons_append, readWord, if_pos rfl]
      rw [List.cons_append, readWord, if_neg hda, if_pos rfl]
      rw [List.cons_append, readWord, if_neg haq,
        if_neg (by simp [hadollar, habtick, habslash])]
      rw [List.cons_append, readWord, if_pos rfl]
      rw [List.cons_append, readWord, if_pos rfl]
      rw [ih rest]
      cases readWord QMode.bare rest <;> simp
    · rw [quoteInner, if_neg hc]
      rw [List.cons_append, readWord, if_neg hc]
      rw [ih rest]
      cases readWord QMode.bare rest <;> simp

/-- Claim C10: for every executable-name string, the capability probe's remote
command is `command -v` applied to the shlex-quoted name; the quoted name reads
back under shell-word semantics as exactly one plain word whose value is the
original name (so no part of it becomes extra shell syntax); and the probe's
result is exactly "exit status equals zero" (output is captured and discarded). -/
theorem claim_C10 (name : String) :
    probe_command name = "command -v " ++ shlex_quote name ∧
    readWord QMode.bare (shlex_quote name).data = some name.data ∧
    ∀ env : Env, command_in_container_available env name =
      (env.bashCode ("command -v " ++ shlex_quote name) == 0) := by
  refine ⟨rfl, ?_, fun env => rfl⟩
  by_cases h0 : name = ""
  · subst h0; rfl
  · by_cases h1 : name.data.all shlexSafe
    · rw [shlex_quote, if_neg h0, if_pos h1]
      exact readWord_safe_chars name.data fun c hc => List.all_eq_true.mp h1 c hc
    · rw [shlex_quote, if_neg h0, if_neg h1]
      have hdata : (sq ++ String.mk (quoteInner name.data) ++ sq).data
          = apos :: (quoteInner name.data ++ apos :: []) := rfl
      rw [hdata, readWord, if_pos rfl, readWord_quoted]
      rw [show readWord QMode.bare ([] : List Char) = some [] from rfl]
      simp

/-! Repository-reference matcher: equivalence with the claimed shape. -/

theorem isEmpty_false_of_ne_nil {α : Type} (l : List α) (h : l ≠ []) :
    l.isEmpty = false := by
  cases l with
  | nil => exact absurd rfl h
  | cons x xs => rfl

theorem ne_nil_of_isEmpty_false {α : Type} (l : List α) (h : l.isEmpty = false) :
    l ≠ [] := by
  cases l with
  | nil => cases h
  | cons x xs => simp

theorem githubCore_iff (c : List Char) : githubCore c = true ↔ githubShape c := by
  constructor
  · intro h
    unfold githubCore at h
    split at h
    case h_1 seg2 heq =>
      simp only [Bool.and_eq_true, Bool.not_eq_true'] at h
      obtain ⟨⟨⟨h1, h2⟩, h3⟩, h4⟩ := h
      refine ⟨c.takeWhile (· != '/'), seg2, ?_, ne_nil_of_isEmpty_false _ h1,
        ne_nil_of_isEmpty_false _ h3, fun x hx => List.all_eq_true.mp h2 x hx,
        fun x hx => List.all_eq_true.mp h4 x hx⟩
      conv_lhs => rw [← List.takeWhile_append_dropWhile (p := (· != '/')) (l := c)]
      rw [heq]
    case h_2 => cases h
  · rintro ⟨a, b, rfl, ha, hb, hac, hbc⟩
    have hslash : ∀ x ∈ a, (x != '/') = true := fun x hx => by
      simp [repoChar_ne_slash x (hac x hx)]
    unfold githubCore
    rw [dropWhile_append_stop _ a '/' b hslash (by simp),
      takeWhile_append_stop _ a '/' b hslash (by simp)]
    simp [isEmpty_false_of_ne_nil a ha, isEmpty_false_of_ne_nil b hb, List.all_eq_true]
    exact ⟨hac, hbc⟩

theorem githubShape_getLast (s : List Char) (h : githubShape s) :
    s.getLast? ≠ some '\n' := by
  obtain ⟨a, b, rfl, ha, hb, hac, hbc⟩ := h
  rw [getLast?_append_right a ('/' :: b) (by simp)]
  cases b with
  | nil => exact absurd rfl hb
  | cons y ys =>
    rw [List.getLast?_cons_cons]
    intro hlast
    exact repoChar_ne_newline '\n' (hbc '\n' (mem_of_getLast? _ _ hlast)) rfl

/-- A matcher of the form "strip one trailing newline, then check the core"
accepts exactly the core language plus its one-trailing-newline extension,
provided no core word ends in a newline. -/
theorem trailing_newline_equiv (f : List Char → Bool) (P : List Char → Prop)
    (hfP : ∀ c, f c = true ↔ P c) (hlast : ∀ c, P c → c.getLast? ≠ some '\n')
    (s : List Char) :
    (if s.getLast? = some '\n' then f s.dropLast else f s) = true ↔
      (P s ∨ ∃ t, s = t ++ ['\n'] ∧ P t) := by
  by_cases h : s.getLast? = some '\n'
  · rw [if_pos h, hfP]
    constructor
    · intro hp
      exact Or.inr ⟨s.dropLast, eq_dropLast_concat s '\n' h, hp⟩
    · rintro (hp | ⟨t, ht, hp⟩)
      · exact absurd h (hlast s hp)
      · have hdt : s.dropLast = t := by rw [ht]; simp
        rw [hdt]; exact hp
  · rw [if_neg h, hfP]
    constructor
    · exact Or.inl
    · rintro (hp | ⟨t, ht, hp⟩)
      · exact hp
      · exact absurd (by rw [ht]; simp : s.getLast? = some '\n') h

theorem matchGithub_iff (s : List Char) :
    matchGithub s = true ↔ (githubShape s ∨ ∃ t, s = t ++ ['\n'] ∧ githubShape t) :=
  trailing_newline_equiv githubCore githubShape githubCore_iff githubShape_getLast s

/-- Claim C5 (amended): repository-reference validation accepts exactly the
strings made of two nonempty segments of `[A-Za-z0-9_.-]` separated by a single
'/', or such a string followed by one trailing newline (Python's `$` matches
before a trailing newline); in particular it accepts `octocat/hello-world` and
rejects `octocat`, `octocat/`, `/hello-world` and `octocat/hello world` with an
InvalidFormat error. -/
theorem claim_C5 :
    (∀ s : List Char,
      matchGithub s = true ↔ (githubShape s ∨ ∃ t, s = t ++ ['\n'] ∧ githubShape t)) ∧
    validate_github (some "octocat/hello-world") = Except.ok (some "octocat/hello-world") ∧
    validate_github (some "octocat") = Except.error SrcError.invalidFormat ∧
    validate_github (some "octocat/") = Except.error SrcError.invalidFormat ∧
    validate_github (some "/hello-world") = Except.error SrcError.invalidFormat ∧
    validate_github (some "octocat/hello world") = Except.error SrcError.invalidFormat :=
  ⟨matchGithub_iff, rfl, rfl, rfl, rfl, rfl⟩

/-- Claim C5 counterexample: the claim's "accepts exactly" fails, because the
matcher also accepts a reference followed by one trailing newline, which is not
made of two segments of the allowed characters. -/
theorem claim_C5_counterexample :
    matchGithub ("octocat/hello\n").data = true ∧
      ¬ githubShape ("octocat/hello\n").data := by
  refine ⟨rfl, fun h => githubShape_getLast _ h ?_⟩
  rfl

/-! URL matcher: equivalence with the claimed shape. -/

theorem stripScheme_eq (s r : List Char) :
    stripScheme s = some r ↔
      (s = "https://".data ++ r ∨ s = "http://".data ++ r) := by
  constructor
  · intro h
    unfold stripScheme at h
    by_cases h1 : s.take 8 = "https://".data
    · rw [if_pos h1] at h
      cases h
      exact Or.inl (by conv_lhs => rw [← List.take_append_drop 8 s, h1])
    · rw [if_neg h1] at h
      by_cases h2 : s.take 7 = "http://".data
      · rw [if_pos h2] at h
        cases h
        exact Or.inr (by conv_lhs => rw [← List.take_append_drop 7 s, h2])
      · rw [if_neg h2] at h
        cases h
  · rintro (rfl | rfl)
    · unfold stripScheme
      rw [if_pos (by rw [show (8 : Nat) = ("https://".data).length from rfl, take_len_append])]
      rw [show (8 : Nat) = ("https://".data).length from rfl, drop_len_append]
    · have hne : ("http://".data ++ r).take 8 ≠ "https://".data := by
        intro h8
        have h4 : (("http://".data ++ r).take 8).get? 4 = ("https://".data).get? 4 := by
          rw [h8]
        rw [List.get?_take (by norm_num)] at h4
        rw [List.get?_append (by simp)] at h4
        exact absurd h4 (by decide)
      unfold stripScheme
      rw [if_neg hne,
        if_pos (by rw [show (7 : Nat) = ("http://".data).length from rfl, take_len_append]),
        show (7 : Nat) = ("http://".data).length from rfl, drop_len_append]

theorem urlCoreShape_getLast (c : List Char) (h : urlCoreShape c) :
    c.getLast? ≠ some '\n' := by
  obtain ⟨host, tld, path, rfl, hh, hhc, htc, hlen, hpath⟩ := h
  rw [getLast?_append_right host ('.' :: (tld ++ path)) (by simp)]
  rcases hpath with rfl | ⟨⟨r, rfl⟩, hnl⟩
  · have htldne : tld ≠ [] := by
      intro hx; rw [hx] at hlen; exact absurd hlen (by norm_num)
    rw [List.append_nil, show ('.' :: tld) = ['.'] ++ tld from rfl,
      getLast?_append_right _ _ htldne]
    intro hlast
    exact lower_ne_newline '\n' (htc '\n' (mem_of_getLast? _ _ hlast)) rfl
  · rw [show ('.' :: (tld ++ '/' :: r)) = ('.' :: tld) ++ ('/' :: r) from by simp,
      getLast?_append_right _ _ (by simp)]
    intro hlast
    exact hnl '\n' (mem_of_getLast? _ _ hlast) rfl

theorem urlCore_iff (c : List Char) : urlCore c = true ↔ urlCoreShape c := by
  constructor
  · intro h
    unfold urlCore at h
    rw [Bool.and_eq_true] at h
    obtain ⟨hnl, hok⟩ := h
    set A := c.takeWhile (· != '/') with hA
    set B := c.dropWhile (· != '/') with hB
    have hc : c = A ++ B := (List.takeWhile_append_dropWhile (p := (· != '/')) (l := c)).symm
    unfold hostOk at hok
    simp only [Bool.and_eq_true] at hok
    obtain ⟨hall, ⟨h2, hlow⟩, h3⟩ := hok
    set T := A.reverse.takeWhile (· != '.') with hT
    have h2' : 2 ≤ T.length := of_decide_eq_true h2
    have h3' : 2 ≤ (A.reverse.dropWhile (· != '.')).length := of_decide_eq_true h3
    have hrev : A.reverse = T ++ A.reverse.dropWhile (· != '.') :=
      (List.takeWhile_append_dropWhile (p := (· != '.')) _).symm
    cases hpre : A.reverse.dropWhile (· != '.') with
    | nil => rw [hpre] at h3'; exact absurd h3' (by norm_num)
    | cons z preTail =>
      have hz : z = '.' := by
        have hzf := dropWhile_head_false (· != '.') A.reverse z preTail hpre
        simpa using hzf
      subst hz
      rw [hpre] at hrev h3'
      have hpt : preTail ≠ [] := by
        intro hx; rw [hx] at h3'; exact absurd h3' (by norm_num)
      have hsplit : A = preTail.reverse ++ '.' :: T.reverse := by
        have h5 := congrArg List.reverse hrev
        rw [List.reverse_reverse] at h5
        rw [h5]; simp
      have hmemA : ∀ x ∈ A, isHostChar x = true := fun x hx => List.all_eq_true.mp hall x hx
      have hmemT : ∀ x ∈ T, x.isLower = true := fun x hx => List.all_eq_true.mp hlow x hx
      refine ⟨preTail.reverse, T.reverse, B, ?_, ?_, ?_, ?_, ?_, ?_⟩
      · rw [hc, hsplit]; simp
      · intro hx
        exact hpt (by simpa using congrArg List.reverse hx)
      · intro x hx
        apply hmemA
        rw [hsplit]
        exact List.mem_append.mpr (Or.inl hx)
      · intro x hx
        exact hmemT x (List.mem_reverse.mp hx)
      · simpa using h2'
      · cases hBv : B with
        | nil => exact Or.inl rfl
        | cons y ys =>
          right
          have hy : y = '/' := by
            have hyf := dropWhile_head_false (· != '/') c y ys (by rw [← hB, hBv])
            simpa using hyf
          subst hy
          refine ⟨⟨ys, rfl⟩, ?_⟩
          intro x hx hxe
          have hxc : x ∈ c := by
            rw [hc, hBv]
            exact List.mem_append.mpr (Or.inr hx)
          have hx2 := List.all_eq_true.mp hnl x hxc
          rw [hxe] at hx2
          simp at hx2
  · rintro ⟨host, tld, path, rfl, hh, hhc, htc, hlen, hpath⟩
    have hostNoSlash : ∀ x ∈ host ++ '.' :: tld, (x != '/') = true := by
      intro x hx
      rcases List.mem_append.mp hx with hx | hx
      · simp [hostChar_ne_slash x (hhc x hx)]
      · rcases List.mem_cons.mp hx with rfl | hx
        · decide
        · simp [lower_ne_slash x (htc x hx)]
    have htw : (host ++ '.' :: (tld ++ path)).takeWhile (· != '/') = host ++ '.' :: tld := by
      rcases hpath with rfl | ⟨⟨r, rfl⟩, hnl⟩
      · rw [List.append_nil]
        exact takeWhile_all_of _ _ hostNoSlash
      · rw [show host ++ '.' :: (tld ++ '/' :: r) = (host ++ '.' :: tld) ++ '/' :: r from by simp]
        exact takeWhile_append_stop _ _ '/' r hostNoSlash (by simp)
    unfold urlCore
    rw [htw, Bool.and_eq_true]
    constructor
    · rw [List.all_eq_true]
      intro x hx
      rcases List.mem_append.mp hx with hx | hx
      · simp [hostChar_ne_newline x (hhc x hx)]
      · rcases List.mem_cons.mp hx with rfl | hx
        · decide
        · rcases List.mem_append.mp hx with hx | hx
          · simp [lower_ne_newline x (htc x hx)]
          · rcases hpath with rfl | ⟨hr, hnl⟩
            · simp at hx
            · simp [hnl x hx]
    · unfold hostOk
      have hrev : (host ++ '.' :: tld).reverse = tld.reverse ++ '.' :: host.reverse := by simp
      rw [hrev]
      have htldNoDot : ∀ x ∈ tld.reverse, (x != '.') = true := by
        intro x hx
        simp [lower_ne_dot x (htc x (List.mem_reverse.mp hx))]
      rw [takeWhile_append_stop _ _ '.' host.reverse htldNoDot (by simp),
        dropWhile_append_stop _ _ '.' host.reverse htldNoDot (by simp)]
      simp only [Bool.and_eq_true]
      refine ⟨?_, ⟨?_, ?_⟩, ?_⟩
      · rw [List.all_eq_true]
        intro x hx
        rcases List.mem_append.mp hx with hx | hx
        · exact hhc x hx
        · rcases List.mem_cons.mp hx with rfl | hx
          · decide
          · exact lower_hostChar x (htc x hx)
      · exact decide_eq_true (by simpa using hlen)
      · rw [List.all_eq_true]
        intro x hx
        exact htc x (List.mem_reverse.mp hx)
      · refine decide_eq_true ?_
        have h1 : 0 < host.length := List.length_pos.mpr hh
        simp
        omega

theorem urlShape_getLast (s : List Char) (h : urlShape s) : s.getLast? ≠ some '\n' := by
  obtain ⟨scheme, rest, rfl, hsch, hcore⟩ := h
  obtain ⟨host, tld, path, hrest, hrest2⟩ := hcore
  have hrne : rest ≠ [] := by
    rw [hrest]; intro hx
    exact absurd (List.append_eq_nil.mp hx).2 (by simp)
  rw [getLast?_append_right _ _ (by simp : (':' :: '/' :: '/' :: rest) ≠ []),
    show (':' :: '/' :: '/' :: rest) = [':', '/', '/'] ++ rest from rfl,
    getLast?_append_right _ _ hrne]
  exact urlCoreShape_getLast rest ⟨host, tld, path, hrest, hrest2⟩

theorem matchUrl_iff (s : List Char) :
    matchUrl s = true ↔ (urlShape s ∨ ∃ t, s = t ++ ['\n'] ∧ urlShape t) := by
  constructor
  · intro h
    unfold matchUrl at h
    cases hstrip : stripScheme s with
    | none => rw [hstrip] at h; cases h
    | some rest =>
      rw [hstrip] at h
      have hcore := (trailing_newline_equiv urlCore urlCoreShape urlCore_iff
        urlCoreShape_getLast rest).mp h
      rcases (stripScheme_eq s rest).mp hstrip with hs | hs
      · rcases hcore with hc | ⟨t, ht, hc⟩
        · exact Or.inl ⟨"https".data, rest, by rw [hs]; rfl, Or.inr rfl, hc⟩
        · refine Or.inr ⟨"https://".data ++ t, ?_, "https".data, t, rfl, Or.inr rfl, hc⟩
          rw [hs, ht]; simp
      · rcases hcore with hc | ⟨t, ht, hc⟩
        · exact Or.inl ⟨"http".data, rest, by rw [hs]; rfl, Or.inl rfl, hc⟩
        · refine Or.inr ⟨"http://".data ++ t, ?_, "http".data, t, rfl, Or.inl rfl, hc⟩
          rw [hs, ht]; simp
  · rintro (⟨scheme, rest, rfl, hsch, hcore⟩ | ⟨t, rfl, ⟨scheme, rest, rfl, hsch, hcore⟩⟩)
    · have hstrip : stripScheme (scheme ++ ':' :: '/' :: '/' :: rest) = some rest := by
        apply (stripScheme_eq _ _).mpr
        rcases hsch with rfl | rfl
        · exact Or.inr rfl
        · exact Or.inl rfl
      unfold matchUrl
      rw [hstrip]
      exact (trailing_newline_equiv urlCore urlCoreShape urlCore_iff
        urlCoreShape_getLast rest).mpr (Or.inl hcore)
    · have hstrip : stripScheme ((scheme ++ ':' :: '/' :: '/' :: rest) ++ ['\n']) =
          some (rest ++ ['\n']) := by
        apply (stripScheme_eq _ _).mpr
        rcases hsch with rfl | rfl
        · exact Or.inr (by simp)
        · exact Or.inl (by simp)
      unfold matchUrl
      rw [hstrip]
      exact (trailing_newline_equiv urlCore urlCoreShape urlCore_iff
        urlCoreShape_getLast (rest ++ ['\n'])).mpr (Or.inr ⟨rest, rfl, hcore⟩)

/-- Claim C4 (amended): URL validation accepts exactly the strings made of a
scheme `http` or `https`, `://`, a host containing at least one dot whose
top-level label is 2+ lowercase letters, and an optional '/'-initiated path —
or such a string followed by one trailing newline (Python's `$` matches before
a trailing newline); in particular it accepts `https://example.com` and
`http://sub.example.co/path` and rejects `ftp://x.com`, `not-a-url` and
`https://nohost` with an InvalidFormat error. -/
theorem claim_C4 :
    (∀ s : List Char,
      matchUrl s = true ↔ (urlShape s ∨ ∃ t, s = t ++ ['\n'] ∧ urlShape t)) ∧
    validate_url (some "https://example.com") = Except.ok (some "https://example.com") ∧
    validate_url (some "http://sub.example.co/path") =
      Except.ok (some "http://sub.example.co/path") ∧
    validate_url (some "ftp://x.com") = Except.error SrcError.invalidFormat ∧
    validate_url (some "not-a-url") = Except.error SrcError.invalidFormat ∧
    validate_url (some "https://nohost") = Except.error SrcError.invalidFormat :=
  ⟨matchUrl_iff, rfl, rfl, rfl, rfl, rfl⟩

/-- Claim C4 counterexample: the claim's "accepts exactly" fails, because the
matcher also accepts a well-formed URL followed by one trailing newline, which
does not have the claimed shape. -/
theorem claim_C4_counterexample :
    matchUrl ("https://example.com\n").data = true ∧
      ¬ urlShape ("https://example.com\n").data := by
  refine ⟨rfl, fun h => urlShape_getLast _ h ?_⟩
  rfl

/-! Source selection (claim C1). -/

/-- Claim C1 (amended): over the callback orders click actually produces (the
present option's callback first when exactly one option is present; either
order when both are; repo first when neither is), the source selection is a
function of the two candidates alone, with exactly one outcome per input shape:
both absent yields MissingSource; both present and both well-formed yields
ConflictingSources; both present with a malformed candidate yields
InvalidFormat; exactly one present and well-formed yields that candidate as the
valid source; exactly one present and malformed yields InvalidFormat. Under
arbitrary (unachievable) orders the outcome can differ, and with both sources
present a malformed candidate is reported as InvalidFormat, not
ConflictingSources. -/
theorem claim_C1 (urlv ghv : Option String) (first : ParamName)
    (h : achievableOrder urlv ghv first = true) :
    runCallbacks first urlv ghv = expectedOutcome urlv ghv := by
  cases urlv with
  | none =>
    cases ghv with
    | none =>
      have hf : first = ParamName.repo := by
        cases first
        · rfl
        · simp [achievableOrder] at h
      subst hf
      rfl
    | some g =>
      have hf : first = ParamName.github := by
        cases first
        · simp [achievableOrder] at h
        · rfl
      subst hf
      by_cases hg : matchGithub g.data <;>
        simp [runCallbacks, paramCallback, validate_url, validate_github,
          validate_sources, expectedOutcome, hg, Except.bind]
  | some u =>
    cases ghv with
    | none =>
      have hf : first = ParamName.repo := by
        cases first
        · rfl
        · simp [achievableOrder] at h
      subst hf
      by_cases hu : matchUrl u.data <;>
        simp [runCallbacks, paramCallback, validate_url, validate_github,
          validate_sources, expectedOutcome, hu, Except.bind]
    | some g =>
      cases first <;> by_cases hu : matchUrl u.data <;> by_cases hg : matchGithub g.data <;>
        simp [runCallbacks, paramCallback, validate_url, validate_github,
          validate_sources, expectedOutcome, hu, hg, Except.bind]

/-- Claim C1 witness: a lone well-formed URL, processed in the order click uses,
yields it as the valid source. -/
theorem claim_C1_witness :
    achievableOrder (some "https://example.com") none ParamName.repo = true ∧
    runCallbacks ParamName.repo (some "https://example.com") none =
      expectedOutcome (some "https://example.com") none :=
  ⟨rfl, claim_C1 (some "https://example.com") none ParamName.repo rfl⟩

/-- Claim C1 counterexample: with both sources present and the URL malformed
(the repo reference being well-formed), both callback orders report
InvalidFormat, not the claimed ConflictingSources; and in the github-first
callback order a lone well-formed URL yields MissingSource instead of a valid
source, so the claimed outcome table does not hold for every processing order. -/
theorem claim_C1_counterexample :
    matchUrl "not-a-url".data = false ∧ matchGithub "a/b".data = true ∧
    runCallbacks ParamName.repo (some "not-a-url") (some "a/b") =
      Except.error SrcError.invalidFormat ∧
    runCallbacks ParamName.github (some "not-a-url") (some "a/b") =
      Except.error SrcError.invalidFormat ∧
    matchUrl "https://example.com".data = true ∧
    runCallbacks ParamName.github (some "https://example.com") none =
      Except.error SrcError.missingSource :=
  ⟨rfl, rfl, rfl, rfl, rfl, rfl⟩

/-! Bootstrap pipeline: structural lemmas about the install blocks and the run. -/

theorem install_step_of_avail (env : Env) (n cmd : String) (m : Option String)
    (h : command_in_container_available env n = true) :
    install_step env n cmd m = ([Call.probe n], [], true) := by
  unfold install_step
  rw [if_pos h]

theorem install_step_of_fail (env : Env) (n cmd : String) (m : Option String)
    (h : (install_step env n cmd m).2.2 = false) :
    install_step env n cmd m =
      ([Call.probe n, Call.exec cmd []],
        (match m with | some x => [x] | none => []), false) := by
  unfold install_step at h ⊢
  by_cases ha : command_in_container_available env n = true
  · rw [if_pos ha] at h
    cases h
  · rw [if_neg ha] at h ⊢
    have h2 : (env.bashCode cmd == 0) = false := h
    cases m <;> simp [h2]

theorem install_step_mem_calls (env : Env) (n cmd : String) (m : Option String) (c : Call)
    (h : c ∈ (install_step env n cmd m).1) :
    c = Call.probe n ∨ c = Call.exec cmd [] := by
  unfold install_step at h
  by_cases ha : command_in_container_available env n = true
  · rw [if_pos ha] at h
    simp at h
    exact Or.inl h
  · rw [if_neg ha] at h
    simpa using h

theorem install_step_mem_msgs (env : Env) (n cmd : String) (m : Option String) (x : String)
    (h : x ∈ (install_step env n cmd m).2.1) : m = some x := by
  unfold install_step at h
  by_cases ha : command_in_container_available env n = true
  · rw [if_pos ha] at h
    simp at h
  · rw [if_neg ha] at h
    cases m with
    | none => simp at h
    | some y =>
      simp at h
      rw [h]

theorem curlStep_fail_calls (env : Env) (h : (curlStep env).2.2 = false) :
    (curlStep env).1 = [Call.probe deps_to_install, Call.exec aptInstallCmd []] := by
  rw [show curlStep env = install_step env deps_to_install aptInstallCmd none from rfl,
    install_step_of_fail env deps_to_install aptInstallCmd none h]

theorem nixStep_fail_calls (env : Env) (h : (nixStep env).2.2 = false) :
    (nixStep env).1 = [Call.probe "nix", Call.exec nixInstallCmd []] := by
  rw [show nixStep env = install_step env "nix" nixInstallCmd (some installingNixMsg) from rfl,
    install_step_of_fail env "nix" nixInstallCmd (some installingNixMsg) h]

theorem hmStep_fail_calls (env : Env) (h : (hmStep env).2.2 = false) :
    (hmStep env).1 = [Call.probe "home-manager", Call.exec hmInstallCmd []] := by
  rw [show hmStep env = install_step env "home-manager" hmInstallCmd (some installingHmMsg) from rfl,
    install_step_of_fail env "home-manager" hmInstallCmd (some installingHmMsg) h]

theorem startingMsg_head (ws : String) : (startingMsg ws).data.head? = some 'S' := rfl

theorem startingMsg_ne_successMsg (ws : String) : startingMsg ws ≠ successMsg := by
  intro h
  have h1 : (startingMsg ws).data.head? = successMsg.data.head? := by rw [h]
  rw [startingMsg_head] at h1
  exact absurd h1 (by decide)

theorem successMsg_not_mem (ws : String) (L : List String) (hL : successMsg ∉ L) :
    successMsg ∉ startingMsg ws :: L := by
  intro hmem
  rcases List.mem_cons.mp hmem with h | h
  · exact startingMsg_ne_successMsg ws h.symm
  · exact hL h

theorem successMsg_not_curl (env : Env) : successMsg ∉ (curlStep env).2.1 := by
  intro h
  exact Option.noConfusion
    (install_step_mem_msgs env deps_to_install aptInstallCmd none successMsg h)

theorem successMsg_not_nix (env : Env) : successMsg ∉ (nixStep env).2.1 := by
  intro h
  have h2 := install_step_mem_msgs env "nix" nixInstallCmd (some installingNixMsg) successMsg h
  exact absurd h2 (by decide)

theorem successMsg_not_hm (env : Env) : successMsg ∉ (hmStep env).2.1 := by
  intro h
  have h2 := install_step_mem_msgs env "home-manager" hmInstallCmd (some installingHmMsg)
    successMsg h
  exact absurd h2 (by decide)

theorem successMsg_not_msgs3 (env : Env) (ws : String) :
    successMsg ∉ startingMsg ws :: startedMsg :: depsMsg :: (curlStep env).2.1 :=
  successMsg_not_mem ws _ (by
    intro h
    rcases List.mem_cons.mp h with h | h
    · exact absurd h (by decide)
    rcases List.mem_cons.mp h with h | h
    · exact absurd h (by decide)
    exact successMsg_not_curl env h)

theorem successMsg_not_msgs4 (env : Env) (ws : String) :
    successMsg ∉ startingMsg ws :: startedMsg :: depsMsg ::
      ((curlStep env).2.1 ++ (nixStep env).2.1) :=
  successMsg_not_mem ws _ (by
    intro h
    rcases List.mem_cons.mp h with h | h
    · exact absurd h (by decide)
    rcases List.mem_cons.mp h with h | h
    · exact absurd h (by decide)
    rcases List.mem_append.mp h with h | h
    · exact successMsg_not_curl env h
    · exact successMsg_not_nix env h)

theorem successMsg_not_msgs5 (env : Env) (ws : String) :
    successMsg ∉ startingMsg ws :: startedMsg :: depsMsg ::
      ((curlStep env).2.1 ++ (nixStep env).2.1 ++ (hmStep env).2.1) :=
  successMsg_not_mem ws _ (by
    intro h
    rcases List.mem_cons.mp h with h | h
    · exact absurd h (by decide)
    rcases List.mem_cons.mp h with h | h
    · exact absurd h (by decide)
    rcases List.mem_append.mp h with h | h
    · rcases List.mem_append.mp h with h | h
      · exact successMsg_not_curl env h
      · exact successMsg_not_nix env h
    · exact successMsg_not_hm env h)

theorem successMsg_not_msgs6 (env : Env) (ws : String) :
    successMsg ∉ startingMsg ws :: startedMsg :: depsMsg ::
      ((curlStep env).2.1 ++ (nixStep env).2.1 ++ (hmStep env).2.1 ++ [applyingMsg]) :=
  successMsg_not_mem ws _ (by
    intro h
    rcases List.mem_cons.mp h with h | h
    · exact absurd h (by decide)
    rcases List.mem_cons.mp h with h | h
    · exact absurd h (by decide)
    rcases List.mem_append.mp h with h | h
    · rcases List.mem_append.mp h with h | h
      · rcases List.mem_append.mp h with h | h
        · exact successMsg_not_curl env h
        · exact successMsg_not_nix env h
      · exact successMsg_not_hm env h
    · exact absurd h (by decide))

/-- Exhaustive case analysis of one `setup` run: exactly one of the seven
scenarios (fail at each of the six stages, or completion) occurs, each with its
exact trace. -/
theorem setup_run_cases (env : Env) (ws : String) (repo github : Option String)
    (config : String) (purge : Bool) :
    (env.upCode ≠ 0 ∧ setup_devcontainer env ws repo github config purge =
      ⟨Outcome.failedReturn Stage.containerStart, [Call.up purge],
        [startingMsg ws, "Failed to run container!"]⟩) ∨
    (command_in_container_available env "apt" = false ∧
      setup_devcontainer env ws repo github config purge =
      ⟨Outcome.failedReturn Stage.depsCheck, [Call.up purge, Call.probe "apt"],
        [startingMsg ws, startedMsg, depsMsg, unsupportedMsg]⟩) ∨
    ((curlStep env).2.2 = false ∧
      setup_devcontainer env ws repo github config purge =
      ⟨Outcome.failedRaise Stage.curlInstall,
        Call.up purge :: Call.probe "apt" :: (curlStep env).1,
        startingMsg ws :: startedMsg :: depsMsg :: (curlStep env).2.1⟩) ∨
    ((curlStep env).2.2 = true ∧ (nixStep env).2.2 = false ∧
      setup_devcontainer env ws repo github config purge =
      ⟨Outcome.failedRaise Stage.nixInstall,
        Call.up purge :: Call.probe "apt" :: ((curlStep env).1 ++ (nixStep env).1),
        startingMsg ws :: startedMsg :: depsMsg ::
          ((curlStep env).2.1 ++ (nixStep env).2.1)⟩) ∨
    ((curlStep env).2.2 = true ∧ (nixStep env).2.2 = true ∧ (hmStep env).2.2 = false ∧
      setup_devcontainer env ws repo github config purge =
      ⟨Outcome.failedRaise Stage.hmInstall,
        Call.up purge :: Call.probe "apt" ::
          ((curlStep env).1 ++ (nixStep env).1 ++ (hmStep env).1),
        startingMsg ws :: startedMsg :: depsMsg ::
          ((curlStep env).2.1 ++ (nixStep env).2.1 ++ (hmStep env).2.1)⟩) ∨
    ((curlStep env).2.2 = true ∧ (nixStep env).2.2 = true ∧ (hmStep env).2.2 = true ∧
      env.bashCode (apply_command (formatted_nix_input github repo) config) ≠ 0 ∧
      setup_devcontainer env ws repo github config purge =
      ⟨Outcome.failedRaise Stage.applyConfig,
        Call.up purge :: Call.probe "apt" ::
          ((curlStep env).1 ++ (nixStep env).1 ++ (hmStep env).1 ++
            [Call.exec (apply_command (formatted_nix_input github repo) config) nix_env]),
        startingMsg ws :: startedMsg :: depsMsg ::
          ((curlStep env).2.1 ++ (nixStep env).2.1 ++ (hmStep env).2.1 ++ [applyingMsg])⟩) ∨
    ((curlStep env).2.2 = true ∧ (nixStep env).2.2 = true ∧ (hmStep env).2.2 = true ∧
      env.bashCode (apply_command (formatted_nix_input github repo) config) = 0 ∧
      setup_devcontainer env ws repo github config purge =
      ⟨Outcome.completed,
        Call.up purge :: Call.probe "apt" ::
          ((curlStep env).1 ++ (nixStep env).1 ++ (hmStep env).1 ++
            [Call.exec (apply_command (formatted_nix_input github repo) config) nix_env]),
        startingMsg ws :: startedMsg :: depsMsg ::
          ((curlStep env).2.1 ++ (nixStep env).2.1 ++ (hmStep env).2.1 ++
            [applyingMsg, successMsg])⟩) := by
  by_cases h0 : env.upCode = 0
  · by_cases h1 : command_in_container_available env "apt" = true
    · cases h2 : (curlStep env).2.2 with
      | false =>
        refine Or.inr (Or.inr (Or.inl ⟨rfl, ?_⟩))
        unfold setup_devcontainer
        rw [if_neg (fun hK => hK h0), if_neg (by simp [h1]), if_pos (by simp [h2])]
      | true =>
        cases h3 : (nixStep env).2.2 with
        | false =>
          refine Or.inr (Or.inr (Or.inr (Or.inl ⟨rfl, rfl, ?_⟩)))
          unfold setup_devcontainer
          rw [if_neg (fun hK => hK h0), if_neg (by simp [h1]), if_neg (by simp [h2]),
            if_pos (by simp [h3])]
        | true =>
          cases h4 : (hmStep env).2.2 with
          | false =>
            refine Or.inr (Or.inr (Or.inr (Or.inr (Or.inl ⟨rfl, rfl, rfl, ?_⟩))))
            unfold setup_devcontainer
            rw [if_neg (fun hK => hK h0), if_neg (by simp [h1]), if_neg (by simp [h2]),
              if_neg (by simp [h3]), if_pos (by simp [h4])]
          | true =>
            by_cases h5 :
                env.bashCode (apply_command (formatted_nix_input github repo) config) = 0
            · refine Or.inr (Or.inr (Or.inr (Or.inr (Or.inr (Or.inr
                ⟨rfl, rfl, rfl, h5, ?_⟩)))))
              unfold setup_devcontainer
              rw [if_neg (fun hK => hK h0), if_neg (by simp [h1]), if_neg (by simp [h2]),
                if_neg (by simp [h3]), if_neg (by simp [h4]), if_neg (fun hK => hK h5)]
            · refine Or.inr (Or.inr (Or.inr (Or.inr (Or.inr (Or.inl
                ⟨rfl, rfl, rfl, h5, ?_⟩)))))
              unfold setup_devcontainer
              rw [if_neg (fun hK => hK h0), if_neg (by simp [h1]), if_neg (by simp [h2]),
                if_neg (by simp [h3]), if_neg (by simp [h4]), if_pos h5]
    · have h1f : command_in_container_available env "apt" = false := by
        revert h1
        cases command_in_container_available env "apt" <;> simp
      refine Or.inr (Or.inl ⟨h1f, ?_⟩)
      unfold setup_devcontainer
      rw [if_neg (fun hK => hK h0), if_pos (by simp [h1f])]
  · refine Or.inl ⟨h0, ?_⟩
    unfold setup_devcontainer
    rw [if_pos h0]

/-- Any call of a run is the container start, the apt probe, a call of one of
the three install blocks, or the final apply command. -/
theorem exec_mem_setup (env : Env) (ws : String) (repo github : Option String)
    (config : String) (purge : Bool) (c : Call)
    (h : c ∈ (setup_devcontainer env ws repo github config purge).calls) :
    c = Call.up purge ∨ c = Call.probe "apt" ∨
      c ∈ (curlStep env).1 ∨ c ∈ (nixStep env).1 ∨ c ∈ (hmStep env).1 ∨
      c = Call.exec (apply_command (formatted_nix_input github repo) config) nix_env := by
  rcases setup_run_cases env ws repo github config purge with
    ⟨_, heq⟩ | ⟨_, heq⟩ | ⟨_, heq⟩ | ⟨_, _, heq⟩ | ⟨_, _, _, heq⟩ |
    ⟨_, _, _, _, heq⟩ | ⟨_, _, _, _, heq⟩ <;>
  · rw [heq] at h
    simp at h
    tauto

/-- Every call issued before the final apply command carries no per-call remote
environment. -/
theorem pre_calls_env_nil (env : Env) (purge : Bool) (cmd : String)
    (e : List (String × String))
    (h : Call.exec cmd e ∈ Call.up purge :: Call.probe "apt" ::
      ((curlStep env).1 ++ (nixStep env).1 ++ (hmStep env).1)) : e = [] := by
  rcases List.mem_cons.mp h with h | h
  · exact Call.noConfusion h
  rcases List.mem_cons.mp h with h | h
  · exact Call.noConfusion h
  rcases List.mem_append.mp h with h | h
  · rcases List.mem_append.mp h with h | h
    · rcases install_step_mem_calls env deps_to_install aptInstallCmd none _ h with h | h
      · exact Call.noConfusion h
      · rw [Call.exec.injEq] at h
        exact h.2
    · rcases install_step_mem_calls env "nix" nixInstallCmd (some installingNixMsg) _ h
        with h | h
      · exact Call.noConfusion h
      · rw [Call.exec.injEq] at h
        exact h.2
  · rcases install_step_mem_calls env "home-manager" hmInstallCmd (some installingHmMsg) _ h
      with h | h
    · exact Call.noConfusion h
    · rw [Call.exec.injEq] at h
      exact h.2

/-- Claim C2: fail-fast and strict sequencing. If the run fails at stage k, the
trace contains exactly the calls of stages up to k — no later remote command is
issued — and the success message is never printed. Sequencing is structural in
the model: each step's result is consulted before any later call is built. -/
theorem claim_C2 (env : Env) (ws : String) (repo github : Option String)
    (config : String) (purge : Bool) (o : Outcome) (cs : List Call) (ms : List String)
    (hrun : setup_devcontainer env ws repo github config purge = ⟨o, cs, ms⟩) :
    (o = Outcome.failedReturn Stage.containerStart →
      cs = [Call.up purge] ∧ successMsg ∉ ms) ∧
    (o = Outcome.failedReturn Stage.depsCheck →
      cs = [Call.up purge, Call.probe "apt"] ∧ successMsg ∉ ms) ∧
    (o = Outcome.failedRaise Stage.curlInstall →
      cs = Call.up purge :: Call.probe "apt" :: (curlStep env).1 ∧
      (curlStep env).1 = [Call.probe deps_to_install, Call.exec aptInstallCmd []] ∧
      successMsg ∉ ms) ∧
    (o = Outcome.failedRaise Stage.nixInstall →
      cs = Call.up purge :: Call.probe "apt" :: ((curlStep env).1 ++ (nixStep env).1) ∧
      (nixStep env).1 = [Call.probe "nix", Call.exec nixInstallCmd []] ∧
      successMsg ∉ ms) ∧
    (o = Outcome.failedRaise Stage.hmInstall →
      cs = Call.up purge :: Call.probe "apt" ::
        ((curlStep env).1 ++ (nixStep env).1 ++ (hmStep env).1) ∧
      (hmStep env).1 = [Call.probe "home-manager", Call.exec hmInstallCmd []] ∧
      successMsg ∉ ms) ∧
    (o = Outcome.failedRaise Stage.applyConfig →
      (∃ pre, cs = pre ++
        [Call.exec (apply_command (formatted_nix_input github repo) config) nix_env]) ∧
      successMsg ∉ ms) ∧
    (o ≠ Outcome.completed → successMsg ∉ ms) := by
  rcases setup_run_cases env ws repo github config purge with
    ⟨hc, heq⟩ | ⟨hc, heq⟩ | ⟨hc, heq⟩ | ⟨hc1, hc2, heq⟩ | ⟨hc1, hc2, hc3, heq⟩ |
    ⟨hc1, hc2, hc3, hc4, heq⟩ | ⟨hc1, hc2, hc3, hc4, heq⟩ <;>
    rw [hrun] at heq <;> injection heq with ho hcalls hmsgs <;>
    subst ho <;> subst hcalls <;> subst hmsgs
  exacts
    [⟨fun _ => ⟨rfl, successMsg_not_mem ws _ (by decide)⟩, fun h => absurd h (by decide),
      fun h => absurd h (by decide), fun h => absurd h (by decide),
      fun h => absurd h (by decide), fun h => absurd h (by decide),
      fun _ => successMsg_not_mem ws _ (by decide)⟩,
    ⟨fun h => absurd h (by decide), fun _ => ⟨rfl, successMsg_not_mem ws _ (by decide)⟩,
      fun h => absurd h (by decide), fun h => absurd h (by decide),
      fun h => absurd h (by decide), fun h => absurd h (by decide),
      fun _ => successMsg_not_mem ws _ (by decide)⟩,
    ⟨fun h => absurd h (by decide), fun h => absurd h (by decide),
      fun _ => ⟨rfl, curlStep_fail_calls env hc, successMsg_not_msgs3 env ws⟩,
      fun h => absurd h (by decide), fun h => absurd h (by decide),
      fun h => absurd h (by decide), fun _ => successMsg_not_msgs3 env ws⟩,
    ⟨fun h => absurd h (by decide), fun h => absurd h (by decide),
      fun h => absurd h (by decide),
      fun _ => ⟨rfl, nixStep_fail_calls env hc2, successMsg_not_msgs4 env ws⟩,
      fun h => absurd h (by decide), fun h => absurd h (by decide),
      fun _ => successMsg_not_msgs4 env ws⟩,
    ⟨fun h => absurd h (by decide), fun h => absurd h (by decide),
      fun h => absurd h (by decide), fun h => absurd h (by decide),
      fun _ => ⟨rfl, hmStep_fail_calls env hc3, successMsg_not_msgs5 env ws⟩,
      fun h => absurd h (by decide), fun _ => successMsg_not_msgs5 env ws⟩,
    ⟨fun h => absurd h (by decide), fun h => absurd h (by decide),
      fun h => absurd h (by decide), fun h => absurd h (by decide),
      fun h => absurd h (by decide),
      fun _ => ⟨⟨Call.up purge :: Call.probe "apt" ::
        ((curlStep env).1 ++ (nixStep env).1 ++ (hmStep env).1), by simp⟩,
        successMsg_not_msgs6 env ws⟩,
      fun _ => successMsg_not_msgs6 env ws⟩,
    ⟨fun h => absurd h (by decide), fun h => absurd h (by decide),
      fun h => absurd h (by decide), fun h => absurd h (by decide),
      fun h => absurd h (by decide), fun h => absurd h (by decide),
      fun h => absurd rfl h⟩]

/-- Claim C2 witness: with apt and curl present but the nix install failing, the
run stops at the nix stage with exactly the calls of stages up to it and no
success message. -/
theorem claim_C2_witness :
    (setup_devcontainer envNixFail "w" none (some "o/r") "cfg" false).calls =
      Call.up false :: Call.probe "apt" ::
        ((curlStep envNixFail).1 ++ (nixStep envNixFail).1) ∧
    (nixStep envNixFail).1 = [Call.probe "nix", Call.exec nixInstallCmd []] ∧
    successMsg ∉ (setup_devcontainer envNixFail "w" none (some "o/r") "cfg" false).msgs := by
  have X := (claim_C2 envNixFail "w" none (some "o/r") "cfg" false _ _ _ rfl).2.2.2.1
    (by decide)
  exact ⟨X.1, X.2.1, X.2.2⟩

/-- Claim C3: idempotency. If the capability probe reports a tool present, the
run issues zero install commands for that tool: curl present means no apt
install command, nix present means no nix install command, home-manager present
means no home-manager install command. -/
theorem claim_C3 (env : Env) (ws : String) (repo github : Option String)
    (config : String) (purge : Bool) :
    (command_in_container_available env deps_to_install = true →
      Call.exec aptInstallCmd [] ∉
        (setup_devcontainer env ws repo github config purge).calls) ∧
    (command_in_container_available env "nix" = true →
      Call.exec nixInstallCmd [] ∉
        (setup_devcontainer env ws repo github config purge).calls) ∧
    (command_in_container_available env "home-manager" = true →
      Call.exec hmInstallCmd [] ∉
        (setup_devcontainer env ws repo github config purge).calls) := by
  refine ⟨fun hav hmem => ?_, fun hav hmem => ?_, fun hav hmem => ?_⟩
  · rcases exec_mem_setup env ws repo github config purge _ hmem with h | h | h | h | h | h
    · exact Call.noConfusion h
    · exact Call.noConfusion h
    · rw [show curlStep env = install_step env deps_to_install aptInstallCmd none from rfl,
        install_step_of_avail env deps_to_install aptInstallCmd none hav] at h
      simp at h
    · rcases install_step_mem_calls env "nix" nixInstallCmd (some installingNixMsg) _ h
        with h | h
      · exact Call.noConfusion h
      · rw [Call.exec.injEq] at h
        exact absurd h.1 (by decide)
    · rcases install_step_mem_calls env "home-manager" hmInstallCmd (some installingHmMsg) _ h
        with h | h
      · exact Call.noConfusion h
      · rw [Call.exec.injEq] at h
        exact absurd h.1 (by decide)
    · rw [Call.exec.injEq] at h
      exact absurd h.2 (by decide)
  · rcases exec_mem_setup env ws repo github config purge _ hmem with h | h | h | h | h | h
    · exact Call.noConfusion h
    · exact Call.noConfusion h
    · rcases install_step_mem_calls env deps_to_install aptInstallCmd none _ h with h | h
      · exact Call.noConfusion h
      · rw [Call.exec.injEq] at h
        exact absurd h.1 (by decide)
    · rw [show nixStep env = install_step env "nix" nixInstallCmd (some installingNixMsg)
          from rfl,
        install_step_of_avail env "nix" nixInstallCmd (some installingNixMsg) hav] at h
      simp at h
    · rcases install_step_mem_calls env "home-manager" hmInstallCmd (some installingHmMsg) _ h
        with h | h
      · exact Call.noConfusion h
      · rw [Call.exec.injEq] at h
        exact absurd h.1 (by decide)
    · rw [Call.exec.injEq] at h
      exact absurd h.2 (by decide)
  · rcases exec_mem_setup env ws repo github config purge _ hmem with h | h | h | h | h | h
    · exact Call.noConfusion h
    · exact Call.noConfusion h
    · rcases install_step_mem_calls env deps_to_install aptInstallCmd none _ h with h | h
      · exact Call.noConfusion h
      · rw [Call.exec.injEq] at h
        exact absurd h.1 (by decide)
    · rcases install_step_mem_calls env "nix" nixInstallCmd (some installingNixMsg) _ h
        with h | h
      · exact Call.noConfusion h
      · rw [Call.exec.injEq] at h
        exact absurd h.1 (by decide)
    · rw [show hmStep env = install_step env "home-manager" hmInstallCmd
          (some installingHmMsg) from rfl,
        install_step_of_avail env "home-manager" hmInstallCmd (some installingHmMsg) hav] at h
      simp at h
    · rw [Call.exec.injEq] at h
      exact absurd h.2 (by decide)

/-- Claim C3 witness: with every tool present, the run issues no apt install
command. -/
theorem claim_C3_witness :
    command_in_container_available envAllOk deps_to_install = true ∧
    Call.exec aptInstallCmd [] ∉
      (setup_devcontainer envAllOk "w" none (some "o/r") "cfg" false).calls :=
  ⟨rfl, (claim_C3 envAllOk "w" none (some "o/r") "cfg" false).1 rfl⟩

/-- Claim C6: the final apply step issues exactly one remote command, built from
the resolved source: a github reference is formatted `github:owner/repo`, a URL
is used verbatim, the configuration name follows `#` unmodified and `-b backup`
is appended; the `NIX_CONFIG` experimental-features toggle is the remote
environment of that single final command and of no earlier call. -/
theorem claim_C6 (env : Env) (ws : String) (repo github : Option String)
    (config : String) (purge : Bool) (o : Outcome) (cs : List Call) (ms : List String)
    (hrun : setup_devcontainer env ws repo github config purge = ⟨o, cs, ms⟩) :
    (∀ g : String, g ≠ "" → formatted_nix_input (some g) repo = "github:" ++ g) ∧
    (∀ r : String, formatted_nix_input none (some r) = r) ∧
    (apply_command (formatted_nix_input github repo) config =
      "nix run --inputs-from " ++ formatted_nix_input github repo ++ " home-manager -- " ++
        "switch --flake " ++ formatted_nix_input github repo ++ "#" ++ config ++
        " -b backup") ∧
    (∀ cmd e, Call.exec cmd e ∈ cs → e ≠ [] →
      cmd = apply_command (formatted_nix_input github repo) config ∧ e = nix_env) ∧
    ((o = Outcome.completed ∨ o = Outcome.failedRaise Stage.applyConfig) →
      ∃ pre, cs = pre ++
          [Call.exec (apply_command (formatted_nix_input github repo) config) nix_env] ∧
        ∀ cmd e, Call.exec cmd e ∈ pre → e = []) := by
  refine ⟨fun g hg => by simp [formatted_nix_input, hg], fun r => rfl, rfl, ?_, ?_⟩
  · intro cmd e hmem hne
    have hmem2 : Call.exec cmd e ∈
        (setup_devcontainer env ws repo github config purge).calls := by
      rw [hrun]
      exact hmem
    rcases exec_mem_setup env ws repo github config purge _ hmem2 with h | h | h | h | h | h
    · exact Call.noConfusion h
    · exact Call.noConfusion h
    · rcases install_step_mem_calls env deps_to_install aptInstallCmd none _ h with h | h
      · exact Call.noConfusion h
      · rw [Call.exec.injEq] at h
        exact absurd h.2 hne
    · rcases install_step_mem_calls env "nix" nixInstallCmd (some installingNixMsg) _ h
        with h | h
      · exact Call.noConfusion h
      · rw [Call.exec.injEq] at h
        exact absurd h.2 hne
    · rcases install_step_mem_calls env "home-manager" hmInstallCmd (some installingHmMsg) _ h
        with h | h
      · exact Call.noConfusion h
      · rw [Call.exec.injEq] at h
        exact absurd h.2 hne
    · rw [Call.exec.injEq] at h
      exact h
  · intro ho
    rcases setup_run_cases env ws repo github config purge with
      ⟨hc, heq⟩ | ⟨hc, heq⟩ | ⟨hc, heq⟩ | ⟨hc1, hc2, heq⟩ | ⟨hc1, hc2, hc3, heq⟩ |
      ⟨hc1, hc2, hc3, hc4, heq⟩ | ⟨hc1, hc2, hc3, hc4, heq⟩ <;>
      rw [hrun] at heq <;> injection heq with ho2 hcalls hmsgs <;>
      subst ho2 <;> subst hcalls
    exacts
      [(by rcases ho with ho | ho <;> exact absurd ho (by decide)),
      (by rcases ho with ho | ho <;> exact absurd ho (by decide)),
      (by rcases ho with ho | ho <;> exact absurd ho (by decide)),
      (by rcases ho with ho | ho <;> exact absurd ho (by decide)),
      (by rcases ho with ho | ho <;> exact absurd ho (by decide)),
      ⟨Call.up purge :: Call.probe "apt" ::
          ((curlStep env).1 ++ (nixStep env).1 ++ (hmStep env).1), by simp,
        fun cmd e hm => pre_calls_env_nil env purge cmd e hm⟩,
      ⟨Call.up purge :: Call.probe "apt" ::
          ((curlStep env).1 ++ (nixStep env).1 ++ (hmStep env).1), by simp,
        fun cmd e hm => pre_calls_env_nil env purge cmd e hm⟩]

/-- Claim C6 witness: concrete source formatting through the theorem. -/
theorem claim_C6_witness :
    formatted_nix_input (some "o/r") none = "github:" ++ "o/r" ∧
    formatted_nix_input none (some "https://x.co") = "https://x.co" :=
  ⟨(claim_C6 envAllOk "w" none (some "o/r") "cfg" false _ _ _ rfl).1 "o/r" (by decide),
    (claim_C6 envAllOk "w" none (some "o/r") "cfg" false _ _ _ rfl).2.1 "https://x.co"⟩

/-- Claim C7: when container start succeeds and the apt probe reports absence,
the run stops failed at the dependency check with the UnsupportedEnvironment
message, having issued only the container start and the apt probe — zero
install commands. -/
theorem claim_C7 (env : Env) (ws : String) (repo github : Option String)
    (config : String) (purge : Bool)
    (h0 : env.upCode = 0) (h1 : command_in_container_available env "apt" = false) :
    setup_devcontainer env ws repo github config purge =
      ⟨Outcome.failedReturn Stage.depsCheck, [Call.up purge, Call.probe "apt"],
        [startingMsg ws, startedMsg, depsMsg, unsupportedMsg]⟩ := by
  unfold setup_devcontainer
  rw [if_neg (fun hK => hK h0), if_pos (by simp [h1])]

/-- Claim C7 witness: a concrete oracle without apt. -/
theorem claim_C7_witness :
    envNoApt.upCode = 0 ∧
    command_in_container_available envNoApt "apt" = false ∧
    setup_devcontainer envNoApt "w" none (some "o/r") "cfg" false =
      ⟨Outcome.failedReturn Stage.depsCheck, [Call.up false, Call.probe "apt"],
        [startingMsg "w", startedMsg, depsMsg, unsupportedMsg]⟩ :=
  ⟨rfl, by decide,
    claim_C7 envNoApt "w" none (some "o/r") "cfg" false rfl (by decide)⟩

/-- Claim C8: scenario C. Container start succeeds, apt is present, all three
probed tools are absent, all three installs succeed and the final apply fails:
the run ends failed at the apply stage having issued, after the container
start, the four probes plus exactly 3 install commands and 1 apply command —
exactly 4 executed commands. -/
theorem claim_C8 (env : Env) (ws : String) (repo github : Option String)
    (config : String) (purge : Bool)
    (h0 : env.upCode = 0)
    (h1 : command_in_container_available env "apt" = true)
    (h2 : command_in_container_available env deps_to_install = false)
    (h3 : command_in_container_available env "nix" = false)
    (h4 : command_in_container_available env "home-manager" = false)
    (h5 : env.bashCode aptInstallCmd = 0)
    (h6 : env.bashCode nixInstallCmd = 0)
    (h7 : env.bashCode hmInstallCmd = 0)
    (h8 : env.bashCode (apply_command (formatted_nix_input github repo) config) ≠ 0) :
    (setup_devcontainer env ws repo github config purge).outcome =
      Outcome.failedRaise Stage.applyConfig ∧
    (setup_devcontainer env ws repo github config purge).calls =
      [Call.up purge, Call.probe "apt", Call.probe deps_to_install,
        Call.exec aptInstallCmd [], Call.probe "nix", Call.exec nixInstallCmd [],
        Call.probe "home-manager", Call.exec hmInstallCmd [],
        Call.exec (apply_command (formatted_nix_input github repo) config) nix_env] ∧
    ((setup_devcontainer env ws repo github config purge).calls.filter isExecCall) =
      [Call.exec aptInstallCmd [], Call.exec nixInstallCmd [], Call.exec hmInstallCmd [],
        Call.exec (apply_command (formatted_nix_input github repo) config) nix_env] ∧
    ((setup_devcontainer env ws repo github config purge).calls.filter isExecCall).length
      = 4 := by
  have hcs : curlStep env = ([Call.probe deps_to_install, Call.exec aptInstallCmd []],
      [], true) := by
    unfold curlStep install_step
    rw [if_neg (by simp [h2])]
    simp [h5]
  have hns : nixStep env = ([Call.probe "nix", Call.exec nixInstallCmd []],
      [installingNixMsg], true) := by
    unfold nixStep install_step
    rw [if_neg (by simp [h3])]
    simp [h6]
  have hhs : hmStep env = ([Call.probe "home-manager", Call.exec hmInstallCmd []],
      [installingHmMsg], true) := by
    unfold hmStep install_step
    rw [if_neg (by simp [h4])]
    simp [h7]
  have h2' : (curlStep env).2.2 = true := by rw [hcs]
  have h3' : (nixStep env).2.2 = true := by rw [hns]
  have h4' : (hmStep env).2.2 = true := by rw [hhs]
  have hrun : setup_devcontainer env ws repo github config purge =
      ⟨Outcome.failedRaise Stage.applyConfig,
        Call.up purge :: Call.probe "apt" ::
          ((curlStep env).1 ++ (nixStep env).1 ++ (hmStep env).1 ++
            [Call.exec (apply_command (formatted_nix_input github repo) config) nix_env]),
        startingMsg ws :: startedMsg :: depsMsg ::
          ((curlStep env).2.1 ++ (nixStep env).2.1 ++ (hmStep env).2.1 ++
            [applyingMsg])⟩ := by
    unfold setup_devcontainer
    rw [if_neg (fun hK => hK h0), if_neg (by simp [h1]), if_neg (by simp [h2']),
      if_neg (by simp [h3']), if_neg (by simp [h4']), if_pos h8]
  rw [hrun, hcs, hns, hhs]
  refine ⟨rfl, by simp, ?_, ?_⟩
  · simp [isExecCall]
  · simp [isExecCall]

set_option maxRecDepth 16384 in
/-- Claim C8 witness: a concrete oracle realizing scenario C. -/
theorem claim_C8_witness :
    (setup_devcontainer envScenC "w" none (some "o/r") "cfg" false).outcome =
      Outcome.failedRaise Stage.applyConfig ∧
    ((setup_devcontainer envScenC "w" none (some "o/r") "cfg" false).calls.filter
      isExecCall).length = 4 := by
  have X := claim_C8 envScenC "w" none (some "o/r") "cfg" false rfl (by decide) (by decide)
    (by decide) (by decide) (by decide) (by decide) (by decide) (by decide)
  exact ⟨X.1, X.2.2.2⟩

/-- Claim C9 (amended): every failing step terminates the run early (the success
message is never printed, and the return-style failures carry their stage
message), but the process exit status does distinguish the two failure styles:
echo-and-return failures (container start, unsupported environment) exit 0 —
the same status as success — while the raising failures (install, apply) exit
1; no finer distinction between failure kinds exists. -/
theorem claim_C9 (env : Env) (ws : String) (repo github : Option String)
    (config : String) (purge : Bool) (o : Outcome) (cs : List Call) (ms : List String)
    (hrun : setup_devcontainer env ws repo github config purge = ⟨o, cs, ms⟩) :
    exitCode Outcome.completed = 0 ∧
    (∀ s, exitCode (Outcome.failedReturn s) = 0) ∧
    (∀ s, exitCode (Outcome.failedRaise s) = 1) ∧
    (o = Outcome.failedReturn Stage.containerStart → "Failed to run container!" ∈ ms) ∧
    (o = Outcome.failedReturn Stage.depsCheck → unsupportedMsg ∈ ms) ∧
    (o ≠ Outcome.completed → successMsg ∉ ms) := by
  rcases setup_run_cases env ws repo github config purge with
    ⟨hc, heq⟩ | ⟨hc, heq⟩ | ⟨hc, heq⟩ | ⟨hc1, hc2, heq⟩ | ⟨hc1, hc2, hc3, heq⟩ |
    ⟨hc1, hc2, hc3, hc4, heq⟩ | ⟨hc1, hc2, hc3, hc4, heq⟩ <;>
    rw [hrun] at heq <;> injection heq with ho hcalls hmsgs <;>
    subst ho <;> subst hcalls <;> subst hmsgs
  exacts
    [⟨rfl, fun s => rfl, fun s => rfl, fun _ => by simp, fun h => absurd h (by decide),
      fun _ => successMsg_not_mem ws _ (by decide)⟩,
    ⟨rfl, fun s => rfl, fun s => rfl, fun h => absurd h (by decide), fun _ => by simp,
      fun _ => successMsg_not_mem ws _ (by decide)⟩,
    ⟨rfl, fun s => rfl, fun s => rfl, fun h => absurd h (by decide),
      fun h => absurd h (by decide), fun _ => successMsg_not_msgs3 env ws⟩,
    ⟨rfl, fun s => rfl, fun s => rfl, fun h => absurd h (by decide),
      fun h => absurd h (by decide), fun _ => successMsg_not_msgs4 env ws⟩,
    ⟨rfl, fun s => rfl, fun s => rfl, fun h => absurd h (by decide),
      fun h => absurd h (by decide), fun _ => successMsg_not_msgs5 env ws⟩,
    ⟨rfl, fun s => rfl, fun s => rfl, fun h => absurd h (by decide),
      fun h => absurd h (by decide), fun _ => successMsg_not_msgs6 env ws⟩,
    ⟨rfl, fun s => rfl, fun s => rfl, fun h => absurd h (by decide),
      fun h => absurd h (by decide), fun h => absurd rfl h⟩]

/-- Claim C9 witness: a failing container start keeps its failure message and no
success message. -/
theorem claim_C9_witness :
    "Failed to run container!" ∈
      (setup_devcontainer envUpFail "w" none (some "o/r") "cfg" false).msgs ∧
    successMsg ∉ (setup_devcontainer envUpFail "w" none (some "o/r") "cfg" false).msgs := by
  have X := claim_C9 envUpFail "w" none (some "o/r") "cfg" false _ _ _ rfl
  exact ⟨X.2.2.2.1 (by decide), X.2.2.2.2.2 (by decide)⟩

set_option maxRecDepth 16384 in
/-- Claim C9 counterexample: the claim's "no structured exit-code distinction
between the failure kinds" fails: a container-start failure exits with status 0
(the command function returns normally) while an apply failure exits with
status 1 (uncaught CalledProcessError), so two failure kinds are
distinguishable by exit status. -/
theorem claim_C9_counterexample :
    (setup_devcontainer envUpFail "w" none (some "o/r") "cfg" false).outcome =
      Outcome.failedReturn Stage.containerStart ∧
    (setup_devcontainer envScenC "w" none (some "o/r") "cfg" false).outcome =
      Outcome.failedRaise Stage.applyConfig ∧
    exitCode (setup_devcontainer envUpFail "w" none (some "o/r") "cfg" false).outcome = 0 ∧
    exitCode (setup_devcontainer envScenC "w" none (some "o/r") "cfg" false).outcome = 1 :=
  ⟨by decide, by decide, by decide, by decide⟩

end DNI
